import Mathlib

/-! Verification of the general directed weighted graph (GDWG) container of
src/gdwg_graph.h.  The C++ class template gdwg::graph<N, E> stores an
adjacency list std::map<N, edge_list> where edge_list is a vector of
(possibly weighted) edge records.  We embed it shallowly:

* an edge record is a structure with source, destination and an optional
  weight (the weighted_edge / unweighted_edge subclasses are the two
  variants of the Option);
* the std::map is a key-sorted association list, and each map operation
  used by the code (find, operator[], emplace, erase) is translated to an
  association-list operation that keeps keys sorted, as std::map does;
* std::sort with the comparator of graph::sort_edges is modelled by
  insertion sort with respect to the same comparator (any two elements the
  comparator regards as equivalent also have equal destination and weight,
  and in graph states the code can reach they have equal source as well,
  so every std::sort-conforming result is the same list);
* member functions that mutate the graph take the graph and return the new
  one; functions that can throw return an Except paired with the resulting
  state, so that a throwing call's state is visible;
* the bidirectional flattening iterator is a pair (current node key, slot
  index into that node's vector).  A slot index models the vector iterator
  the C++ stores: after a vector::erase in front of it, the slot number is
  unchanged while the elements shift, which is exactly how the (formally
  invalidated, practically still dereferenceable) pointer behaves, and is
  the behaviour graph::erase_edge(iterator, iterator) relies on.
-/

deriving instance DecidableEq for Except

namespace Gdwg

/-- Error kinds thrown by the C++ code via std::runtime_error: absence of a
referenced node, and a two-iterator erase range given out of order. -/
inductive Err where
  | NodeNotFound
  | InvalidRange
deriving DecidableEq

/-- An edge record: source, destination and the two-variant payload,
an unweighted edge having weight none (class edge with subclasses
weighted_edge / unweighted_edge in the source). -/
structure Edge (α β : Type) where
  from_ : α
  to_ : α
  weight : Option β
deriving DecidableEq

variable {α β : Type} [LinearOrder α] [LinearOrder β]

/-- edge::is_weighted. -/
def Edge.is_weighted (e : Edge α β) : Bool := e.weight.isSome

/-- graph::create_edge: a weighted edge when a weight is supplied, an
unweighted edge otherwise. -/
def create_edge (src dst : α) (weight : Option β) : Edge α β :=
  ⟨src, dst, weight⟩

/-- The edge_list type: a node's outgoing edges, in vector order. -/
abbrev EdgeList (α β : Type) := List (Edge α β)

/-- The graph: its adjacency_list_ member, a std::map modelled as a
key-sorted association list. -/
structure Graph (α β : Type) where
  adjacency_list : List (α × EdgeList α β)
deriving DecidableEq

/-- std::map::find, returning the mapped edge list when the key exists. -/
def mapFind : List (α × EdgeList α β) → α → Option (EdgeList α β)
  | [], _ => none
  | (k, v) :: rest, key => if key = k then some v else mapFind rest key

/-- Writing through std::map::operator[]: replaces the list stored at an
existing key, or inserts the key at its sorted position. -/
def mapSet : List (α × EdgeList α β) → α → EdgeList α β → List (α × EdgeList α β)
  | [], key, v => [(key, v)]
  | (k, w) :: rest, key, v =>
    if key = k then (key, v) :: rest
    else if key < k then (key, v) :: (k, w) :: rest
    else (k, w) :: mapSet rest key v

/-- std::map::erase by key. -/
def mapErase : List (α × EdgeList α β) → α → List (α × EdgeList α β)
  | [], _ => []
  | (k, v) :: rest, key => if key = k then rest else (k, v) :: mapErase rest key

/-- The outgoing edge list stored for a node (empty when absent; the code
only reads lists of keys it has checked are present). -/
def Graph.edgesOf (g : Graph α β) (k : α) : EdgeList α β :=
  (mapFind g.adjacency_list k).getD []

/-- graph::is_node. -/
def Graph.is_node (g : Graph α β) (v : α) : Bool :=
  (mapFind g.adjacency_list v).isSome

/-- graph::empty. -/
def Graph.empty (g : Graph α β) : Bool :=
  g.adjacency_list.isEmpty

/-- graph::nodes: all stored nodes in map (ascending) order. -/
def Graph.nodes (g : Graph α β) : List α :=
  g.adjacency_list.map Prod.fst

/-- Comparison of bools as the C++ operator< on bool: false < true. -/
def boolLt (a b : Bool) : Bool := !a && b

/-- Comparison *a->get_weight() < *b->get_weight() in the sort comparator;
only reached when both edges are weighted. -/
def weight_lt : Option β → Option β → Bool
  | some x, some y => decide (x < y)
  | _, _ => false

/-- The strict-order comparator of graph::sort_edges: destination first,
then weightedness (unweighted before weighted), then weight. -/
def edge_cmp_lt (a b : Edge α β) : Bool :=
  if a.to_ ≠ b.to_ then decide (a.to_ < b.to_)
  else if a.is_weighted ≠ b.is_weighted then boolLt a.is_weighted b.is_weighted
  else if a.is_weighted then weight_lt a.weight b.weight
  else false

/-- The non-strict order induced by the sort comparator: a may precede b
exactly when the comparator does not order b strictly before a.  std::sort
guarantees precisely this relation between consecutive elements of its
output. -/
def edge_le (a b : Edge α β) : Prop := edge_cmp_lt b a = false

instance : DecidableRel (edge_le (α := α) (β := β)) :=
  fun a b => inferInstanceAs (Decidable (edge_cmp_lt b a = false))

/-- graph::sort_edges: std::sort with edge_cmp_lt, modelled by insertion
sort (see the header comment). -/
def sort_edges (es : EdgeList α β) : EdgeList α β :=
  List.insertionSort edge_le es

/-- A node's outgoing list is in canonical order: no element is strictly
ordered (by the sort comparator) before its predecessor. -/
def edges_canonically_sorted : EdgeList α β → Bool
  | [] => true
  | [_] => true
  | a :: b :: rest => !edge_cmp_lt b a && edges_canonically_sorted (b :: rest)

/-- The predicate of graph::find_edge: same destination, and same weight
signature (a weighted edge must carry the given weight; an unweighted edge
matches exactly a missing weight). -/
def edge_match (dst : α) (weight : Option β) (e : Edge α β) : Bool :=
  decide (e.to_ = dst)
    && ((e.is_weighted && decide (e.weight = weight)) || (!e.is_weighted && weight.isNone))

/-- graph::edge_exists: whether find_edge finds a match. -/
def edge_exists (edges : EdgeList α β) (dst : α) (weight : Option β) : Bool :=
  edges.any (edge_match dst weight)

/-- The duplicate predicate passed to std::unique in merge_replace_node:
equal destination and equal get_weight(). -/
def sigEq (a b : Edge α β) : Bool :=
  decide (a.to_ = b.to_) && decide (a.weight = b.weight)

/-- The scanning phase of std::unique: each element is compared with the
last kept element and dropped when the predicate holds. -/
def uniqueAdjacentGo (last : Edge α β) : EdgeList α β → EdgeList α β
  | [] => []
  | y :: ys => if sigEq last y then uniqueAdjacentGo last ys else y :: uniqueAdjacentGo y ys

/-- new_edges.erase(std::unique(...), end()): remove every element equal
(under sigEq) to the last kept one. -/
def uniqueAdjacent : EdgeList α β → EdgeList α β
  | [] => []
  | x :: xs => x :: uniqueAdjacentGo x xs

/-- graph::insert_node. -/
def insert_node (g : Graph α β) (value : α) : Bool × Graph α β :=
  if g.is_node value then (false, g)
  else (true, ⟨mapSet g.adjacency_list value []⟩)

/-- graph::insert_edge. -/
def insert_edge (g : Graph α β) (src dst : α) (weight : Option β) :
    Except Err Bool × Graph α β :=
  if !g.is_node src || !g.is_node dst then (.error .NodeNotFound, g)
  else
    let edges_from_src := g.edgesOf src
    if edge_exists edges_from_src dst weight then (.ok false, g)
    else
      (.ok true, ⟨mapSet g.adjacency_list src
        (sort_edges (edges_from_src ++ [create_edge src dst weight]))⟩)

/-- graph::replace_node: rename old_data to new_data.  Step numbers follow
the source: a fresh empty list for new_data, (1) re-create old_data's
outgoing edges under new_data, (2) rewrite every from_/to_ equal to
old_data anywhere in the graph, erase old_data, sort new_data's list. -/
def replace_node (g : Graph α β) (old_data new_data : α) : Except Err Bool × Graph α β :=
  if !g.is_node old_data then (.error .NodeNotFound, g)
  else if g.is_node new_data then (.ok false, g)
  else
    let al0 := mapSet g.adjacency_list new_data []
    let oldEdges := (mapFind al0 old_data).getD []
    let al1 := mapSet al0 new_data
      (((mapFind al0 new_data).getD []) ++ oldEdges.map (fun e => create_edge new_data e.to_ e.weight))
    let al2 := al1.map (fun p => (p.1, p.2.map (fun e =>
      ⟨if e.from_ = old_data then new_data else e.from_,
       if e.to_ = old_data then new_data else e.to_,
       e.weight⟩)))
    let al3 := mapErase al2 old_data
    let al4 := mapSet al3 new_data (sort_edges ((mapFind al3 new_data).getD []))
    (.ok true, ⟨al4⟩)

/-- graph::merge_replace_node, step for step: append each outgoing edge of
old_data to new_data's list unless edge_exists already sees its
destination/weight signature there (the list grows while the loop runs),
rewrite every destination equal to old_data to new_data, sort new_data's
list, drop std::unique duplicates, erase old_data. -/
def merge_replace_node (g : Graph α β) (old_data new_data : α) :
    Except Err Unit × Graph α β :=
  if !g.is_node old_data || !g.is_node new_data then (.error .NodeNotFound, g)
  else
    let new_edges1 := (g.edgesOf old_data).foldl
      (fun acc e =>
        if edge_exists acc e.to_ e.weight then acc
        else acc ++ [create_edge new_data e.to_ e.weight])
      (g.edgesOf new_data)
    let al1 := mapSet g.adjacency_list new_data new_edges1
    let al2 := al1.map (fun p => (p.1, p.2.map (fun e =>
      if e.to_ = old_data then ⟨e.from_, new_data, e.weight⟩ else e)))
    let al3 := mapSet al2 new_data (sort_edges ((mapFind al2 new_data).getD []))
    let al4 := mapSet al3 new_data (uniqueAdjacent ((mapFind al3 new_data).getD []))
    (.ok (), ⟨mapErase al4 old_data⟩)

/-- graph::erase_node: drop every edge whose destination is the node, then
drop the node's own entry. -/
def erase_node (g : Graph α β) (value : α) : Bool × Graph α β :=
  if !g.is_node value then (false, g)
  else
    let al1 := g.adjacency_list.map (fun p => (p.1, p.2.filter (fun e => !decide (e.to_ = value))))
    (true, ⟨mapErase al1 value⟩)

/-- graph::erase_edge(src, dst, weight): std::remove_if with the
predicate written in the source (destination equal, and either a weighted
edge carrying the given weight or any unweighted edge), then erase the
removed tail; false when nothing matched. -/
def erase_edge (g : Graph α β) (src dst : α) (weight : Option β) :
    Except Err Bool × Graph α β :=
  if !g.is_node src || !g.is_node dst then (.error .NodeNotFound, g)
  else
    let pred : Edge α β → Bool := fun e =>
      decide (e.to_ = dst) && ((e.is_weighted && decide (e.weight = weight)) || !e.is_weighted)
    let edges_from_src := g.edgesOf src
    if edges_from_src.all (fun e => !pred e) then (.ok false, g)
    else (.ok true, ⟨mapSet g.adjacency_list src (edges_from_src.filter (fun e => !pred e))⟩)

/-- graph::clear. -/
def Graph.clear (_g : Graph α β) : Graph α β := ⟨[]⟩

/-- graph::edges(src, dst): copies of the edges from src to dst, in list
order. -/
def edges_between (g : Graph α β) (src dst : α) : Except Err (EdgeList α β) :=
  if !g.is_node src || !g.is_node dst then .error .NodeNotFound
  else .ok ((g.edgesOf src).filter (fun e => decide (e.to_ = dst)))

/-- graph::is_connected. -/
def is_connected (g : Graph α β) (src dst : α) : Except Err Bool :=
  if !g.is_node src || !g.is_node dst then .error .NodeNotFound
  else .ok (!((g.edgesOf src).filter (fun e => decide (e.to_ = dst))).isEmpty)

/-- graph::connections: the destinations of src's outgoing edges in list
order. -/
def connections (g : Graph α β) (src : α) : Except Err (List α) :=
  if !g.is_node src then .error .NodeNotFound
  else .ok ((g.edgesOf src).map Edge.to_)

/-- The flattening iterator: either a position (current node key, slot
index into that node's edge vector) or the end sentinel (node_it_ ==
node_end_).  Iterator operator== compares the node iterators and, away
from the end, the edge iterators, which for iterators into one graph is
structural equality of this representation. -/
inductive Iter (α : Type) where
  | pos (node : α) (slot : Nat)
  | endIt
deriving DecidableEq

/-- The skip loop shared by the iterator constructor and operator++: walk
the remaining map entries to the first one with a nonempty edge list and
stand on its slot 0, or hit the end sentinel. -/
def skipForward : List (α × EdgeList α β) → Iter α
  | [] => .endIt
  | (k, es) :: rest => if es.isEmpty then skipForward rest else .pos k 0

/-- The map entries strictly after the entry of the given key (advancing
the node iterator past it). -/
def entriesAfter : List (α × EdgeList α β) → α → List (α × EdgeList α β)
  | [], _ => []
  | (k, es) :: rest, key => if key = k then rest else (k, es) :: entriesAfter rest key

/-- graph::begin. -/
def Graph.iterBegin (g : Graph α β) : Iter α :=
  skipForward g.adjacency_list

/-- iterator::operator++: step to the next slot; when that is one past the
current node's last edge, skip forward from the next node.  Incrementing
the end iterator leaves its node iterator at node_end_, so it stays equal
to end() (the C++ touches only the never-again-read edge iterator). -/
def Graph.iterSucc (g : Graph α β) : Iter α → Iter α
  | .endIt => .endIt
  | .pos k slot =>
    if slot + 1 = (g.edgesOf k).length then skipForward (entriesAfter g.adjacency_list k)
    else .pos k (slot + 1)

/-- iterator::operator*: the (from, to, weight) value record; from is the
map key the iterator stands on.  None models the undefined dereference of
an out-of-range position. -/
def Graph.iterVal (g : Graph α β) : Iter α → Option (α × α × Option β)
  | .pos k slot => ((g.edgesOf k).get? slot).map (fun e => (k, e.to_, e.weight))
  | .endIt => none

/-- iterator::index: the distance from the current node's vector begin to
the edge iterator.  The C++ reads it on the end iterator only through
undefined behaviour; no theorem below depends on the value chosen here for
that case. -/
def iterIndex : Iter α → Nat
  | .pos _ slot => slot
  | .endIt => 0

/-- graph::find: end() when either node is absent, else the position of
the first edge from src with the requested destination and weight. -/
def Graph.find (g : Graph α β) (src dst : α) (weight : Option β) : Iter α :=
  if !g.is_node src || !g.is_node dst then .endIt
  else
    match (g.edgesOf src).findIdx? (fun e => decide (e.to_ = dst) && decide (e.weight = weight)) with
    | some j => .pos src j
    | none => .endIt

/-- The flattened iteration: every (from, to, weight) record produced by
walking begin() .. end(), i.e. each node's list in map order with empty
lists contributing nothing. -/
def flattenEntries : List (α × EdgeList α β) → List (α × α × Option β)
  | [] => []
  | (k, es) :: rest => es.map (fun e => (k, e.to_, e.weight)) ++ flattenEntries rest

/-- The flattened iteration of a graph. -/
def Graph.flatten (g : Graph α β) : List (α × α × Option β) :=
  flattenEntries g.adjacency_list

/-- The logical position of an iterator in the flattened iteration: the
number of edges of earlier nodes plus the slot (spec-side notion used to
state the iterator-range claims). -/
def countBefore : List (α × EdgeList α β) → α → Nat
  | [], _ => 0
  | (k, es) :: rest, key => if key = k then 0 else es.length + countBefore rest key

/-- The logical flattened position denoted by an iterator. -/
def Graph.flatPos (g : Graph α β) : Iter α → Nat
  | .pos k slot => countBefore g.adjacency_list k + slot
  | .endIt => g.flatten.length

/-- graph::operator==: the node-count check followed by the element-wise
walk of the two flattened iterations, which succeeds exactly when the two
flattened value sequences are equal. -/
def graphEq (g1 g2 : Graph α β) : Bool :=
  decide (g1.adjacency_list.length = g2.adjacency_list.length)
    && decide (g1.flatten = g2.flatten)

/-- The while loop in graph::erase_edge(iterator) constructing the
returned iterator: advance while the index is positive and the iterator
is not at the end. -/
def iterAdvance (g : Graph α β) : Iter α → Nat → Iter α
  | it, 0 => it
  | it, n + 1 => if it = .endIt then it else iterAdvance g (g.iterSucc it) n

/-- graph::erase_edge(iterator): erase the vector slot the iterator stands
on; report end() when the erased edge was the last of its node's vector;
otherwise rebuild the result by advancing begin() by the within-node index
the erased position had. -/
def erase_edge_it (g : Graph α β) (i : Iter α) : Iter α × Graph α β :=
  match i with
  | .endIt => (.endIt, g)
  | .pos k slot =>
    let es' := (g.edgesOf k).eraseIdx slot
    let g' : Graph α β := ⟨mapSet g.adjacency_list k es'⟩
    if slot = es'.length then (.endIt, g')
    else (iterAdvance g' g'.iterBegin slot, g')

/-- The loop of graph::erase_edge(iterator, iterator): while i is neither
end() nor s, erase at i and then advance once more past the returned
iterator.  Each pass erases one edge, so the total edge count bounds the
iterations; the fuel argument carries that bound. -/
def erase_range_loop (g : Graph α β) (i s : Iter α) : Nat → Iter α × Graph α β
  | 0 => (s, g)
  | fuel + 1 =>
    if i ≠ .endIt ∧ i ≠ s then
      let r := erase_edge_it g i
      erase_range_loop r.2 (r.2.iterSucc r.1) s fuel
    else (s, g)

/-- graph::erase_edge(iterator, iterator): the early return for an
empty-range-at-end call, the InvalidRange check comparing the two
within-node indices, then the erase loop; the original s is returned. -/
def erase_edge_range (g : Graph α β) (i s : Iter α) : Except Err (Iter α) × Graph α β :=
  if i = s ∧ i = .endIt then (.ok s, g)
  else if iterIndex s < iterIndex i then (.error .InvalidRange, g)
  else
    let r := erase_range_loop g i s (g.flatten.length + 1)
    (.ok r.1, r.2)

/-- Any-match duplicate test written from the spec words: an edge with the
given (destination, weight-signature) already exists in the list. -/
def sig_exists (es : EdgeList α β) (dst : α) (w : Option β) : Bool :=
  es.any (fun e => decide (e.to_ = dst) && decide (e.weight = w))

/-- Deduplication by (destination, weight-signature) keeping the first
occurrence, written from the spec words: keep the head, drop every later
edge with the head's signature, continue. -/
def dedup_keep_first (l : EdgeList α β) : EdgeList α β :=
  match l with
  | [] => []
  | x :: xs => x :: dedup_keep_first (xs.filter (fun y => !sigEq x y))
termination_by l.length
decreasing_by
  exact Nat.lt_succ_of_le (List.length_filter_le _ _)

/-- merge_replace_node transcribed from the specification's words, for the
refinement claim: every outgoing edge of old is added to new's outgoing
list unless an edge with the same (destination, weight-signature) is
already there; every edge anywhere whose destination equals old is
rewritten to new; new's outgoing list is re-sorted and deduplicated by
(destination, weight-signature) keeping the first occurrence in canonical
order; old is removed. -/
def merge_replace_node_spec (g : Graph α β) (old_data new_data : α) : Graph α β :=
  let new_edges1 := (g.edgesOf old_data).foldl
    (fun acc e =>
      if sig_exists acc e.to_ e.weight then acc
      else acc ++ [create_edge new_data e.to_ e.weight])
    (g.edgesOf new_data)
  let al1 := mapSet g.adjacency_list new_data new_edges1
  let al2 := al1.map (fun p => (p.1, p.2.map (fun e =>
    if e.to_ = old_data then ⟨e.from_, new_data, e.weight⟩ else e)))
  let al3 := mapSet al2 new_data
    (dedup_keep_first (sort_edges ((mapFind al2 new_data).getD [])))
  ⟨mapErase al3 old_data⟩

/-- Strict comparison of weight signatures: absent before present, then by
weight (the order the comparator of sort_edges realises within one
destination). -/
def wsig_lt : Option β → Option β → Bool
  | none, some _ => true
  | some x, some y => decide (x < y)
  | _, _ => false

/-- Strict comparison of (destination, weight-signature) pairs: the
lexicographic order the comparator of sort_edges realises. -/
def sig_lt (s t : α × Option β) : Bool :=
  decide (s.1 < t.1) || (decide (s.1 = t.1) && wsig_lt s.2 t.2)

section ConcreteGraphs

/-- The empty graph over Int nodes and Int weights, used by the concrete
test states below. -/
def g0 : Graph Int Int := ⟨[]⟩

/-- Insert a node, keeping only the state. -/
def addN (g : Graph Int Int) (v : Int) : Graph Int Int := (insert_node g v).2

/-- Insert an edge, keeping only the state. -/
def addE (g : Graph Int Int) (s d : Int) (w : Option Int) : Graph Int Int :=
  (insert_edge g s d w).2

/-- A graph holding the single isolated node 1. -/
def gA : Graph Int Int := addN g0 1

/-- A graph holding the single isolated node 2. -/
def gB : Graph Int Int := addN g0 2

/-- Nodes 1 and 2, edges 2 → 1 (weight 1) and 2 → 2 (weight 1). -/
def gC2 : Graph Int Int :=
  addE (addE (addN (addN g0 1) 2) 2 1 (some 1)) 2 2 (some 1)

/-- Nodes 1 to 4, edges 1 → 1, 1 → 2, 1 → 3, 1 → 4, each of weight 1. -/
def gC3 : Graph Int Int :=
  addE (addE (addE (addE (addN (addN (addN (addN g0 1) 2) 3) 4)
    1 1 (some 1)) 1 2 (some 1)) 1 3 (some 1)) 1 4 (some 1)

/-- Nodes 1 and 2, edges 1 → 1 (weight 1) and 2 → 1 (weight 1). -/
def gC4 : Graph Int Int :=
  addE (addE (addN (addN g0 1) 2) 1 1 (some 1)) 2 1 (some 1)

/-- Nodes 1 and 2, an unweighted edge 1 → 2 and a weighted edge 1 → 2 of
weight 5. -/
def gC5 : Graph Int Int :=
  addE (addE (addN (addN g0 1) 2) 1 2 none) 1 2 (some 5)

/-- The merge scenario graph: nodes 1, 2, 3 standing for A, B, C with
edges (1,2,1), (1,3,2), (2,3,3). -/
def gC6 : Graph Int Int :=
  addE (addE (addE (addN (addN (addN g0 1) 2) 3) 1 2 (some 1)) 1 3 (some 2)) 2 3 (some 3)

/-- Nodes 1 and 2, edges (1,1,1), (1,2,1) and (2,2,1). -/
def gC7 : Graph Int Int :=
  addE (addE (addE (addN (addN g0 1) 2) 1 1 (some 1)) 1 2 (some 1)) 2 2 (some 1)

/-- Nodes 1, 2, 3 with edges (3,1,7) and (3,2,7). -/
def gC8 : Graph Int Int :=
  addE (addE (addN (addN (addN g0 1) 2) 3) 3 1 (some 7)) 3 2 (some 7)

/-- gC8 after merge_replace_node(1, 2): node 3's list then holds the edge
(3,2,7) twice, a state the public interface reaches. -/
def gC8b : Graph Int Int := (merge_replace_node gC8 1 2).2

end ConcreteGraphs

theorem bool_eq_false_of_not_true {x : Bool} (h : ¬ x = true) : x = false := by
  cases x
  · rfl
  · exact absurd rfl h

/-- The find_edge predicate holds exactly when destination and weight
signature agree, i.e. it coincides with the plain Option-equality test. -/
theorem edge_match_eq (dst : α) (w : Option β) (e : Edge α β) :
    edge_match dst w e = (decide (e.to_ = dst) && decide (e.weight = w)) := by
  cases hu : e.weight <;> cases hw : w <;>
    simp [edge_match, Edge.is_weighted, hu, hw]

/-- edge_exists and the any-signature test of the specification agree. -/
theorem edge_exists_eq_sig_exists (es : EdgeList α β) (dst : α) (w : Option β) :
    edge_exists es dst w = sig_exists es dst w := by
  unfold edge_exists sig_exists
  congr 1
  funext e
  exact edge_match_eq dst w e

theorem wsig_lt_asymm (u v : Option β) (h : wsig_lt u v = true) : wsig_lt v u = false := by
  cases u <;> cases v <;> simp [wsig_lt] at h ⊢
  exact le_of_lt h

theorem wsig_lt_conn (u v : Option β) (h1 : wsig_lt u v = false)
    (h2 : wsig_lt v u = false) : u = v := by
  cases u <;> cases v <;> simp [wsig_lt] at h1 h2 ⊢
  exact le_antisymm h2 h1

theorem wsig_lt_trans (u v w : Option β) (h1 : wsig_lt u v = true)
    (h2 : wsig_lt v w = true) : wsig_lt u w = true := by
  cases u <;> cases v <;> cases w <;> simp [wsig_lt] at h1 h2 ⊢
  exact lt_trans h1 h2

theorem sig_lt_asymm (s t : α × Option β) (h : sig_lt s t = true) : sig_lt t s = false := by
  rcases s with ⟨a, u⟩
  rcases t with ⟨b, v⟩
  simp only [sig_lt, Bool.or_eq_true, Bool.and_eq_true, decide_eq_true_eq] at h
  simp only [sig_lt, Bool.or_eq_false_iff, Bool.and_eq_false_iff, decide_eq_false_iff_not]
  rcases h with h | ⟨he, hw⟩
  · exact ⟨lt_asymm h, Or.inl (ne_of_gt h)⟩
  · subst he
    exact ⟨lt_irrefl a, Or.inr (wsig_lt_asymm u v hw)⟩

theorem sig_lt_conn (s t : α × Option β) (h1 : sig_lt s t = false)
    (h2 : sig_lt t s = false) : s = t := by
  rcases s with ⟨a, u⟩
  rcases t with ⟨b, v⟩
  simp only [sig_lt, Bool.or_eq_false_iff, Bool.and_eq_false_iff,
    decide_eq_false_iff_not] at h1 h2
  obtain ⟨hab, hw1⟩ := h1
  obtain ⟨hba, hw2⟩ := h2
  have hEq : a = b := le_antisymm (not_lt.mp hba) (not_lt.mp hab)
  subst hEq
  have w1 : wsig_lt u v = false := hw1.resolve_left (fun hn => hn rfl)
  have w2 : wsig_lt v u = false := hw2.resolve_left (fun hn => hn rfl)
  exact congrArg (Prod.mk a) (wsig_lt_conn u v w1 w2)

theorem sig_lt_trans (s t r : α × Option β) (h1 : sig_lt s t = true)
    (h2 : sig_lt t r = true) : sig_lt s r = true := by
  rcases s with ⟨a, u⟩
  rcases t with ⟨b, v⟩
  rcases r with ⟨c, w⟩
  simp only [sig_lt, Bool.or_eq_true, Bool.and_eq_true, decide_eq_true_eq] at h1 h2 ⊢
  rcases h1 with h1 | ⟨e1, w1⟩ <;> rcases h2 with h2 | ⟨e2, w2⟩
  · exact Or.inl (lt_trans h1 h2)
  · subst e2
    exact Or.inl h1
  · subst e1
    exact Or.inl h2
  · subst e1
    subst e2
    exact Or.inr ⟨rfl, wsig_lt_trans u v w w1 w2⟩

/-- The sort comparator is the strict lexicographic comparison of the
(destination, weight-signature) pairs. -/
theorem edge_cmp_lt_eq_sig_lt (a b : Edge α β) :
    edge_cmp_lt a b = sig_lt (a.to_, a.weight) (b.to_, b.weight) := by
  by_cases h : a.to_ = b.to_
  · cases hu : a.weight <;> cases hv : b.weight <;>
      simp [edge_cmp_lt, sig_lt, boolLt, weight_lt, wsig_lt, Edge.is_weighted, h, hu, hv,
        lt_irrefl]
  · simp [edge_cmp_lt, sig_lt, h]

theorem sig_le_trans (s t r : α × Option β) (h1 : sig_lt t s = false)
    (h2 : sig_lt r t = false) : sig_lt r s = false := by
  by_cases ha : sig_lt s t = true
  · by_cases hb : sig_lt t r = true
    · exact sig_lt_asymm _ _ (sig_lt_trans _ _ _ ha hb)
    · have e : t = r := sig_lt_conn _ _ (bool_eq_false_of_not_true hb) h2
      rw [← e]
      exact h1
  · have e : s = t := sig_lt_conn _ _ (bool_eq_false_of_not_true ha) h1
    rw [e]
    exact h2

instance : IsTrans (Edge α β) (edge_le (α := α) (β := β)) where
  trans a b c hab hbc := by
    unfold edge_le at hab hbc ⊢
    rw [edge_cmp_lt_eq_sig_lt] at hab hbc ⊢
    exact sig_le_trans _ _ _ hab hbc

instance : IsTotal (Edge α β) (edge_le (α := α) (β := β)) where
  total a b := by
    unfold edge_le
    rw [edge_cmp_lt_eq_sig_lt, edge_cmp_lt_eq_sig_lt]
    by_cases h : sig_lt (b.to_, b.weight) (a.to_, a.weight) = true
    · exact Or.inr (sig_lt_asymm _ _ h)
    · exact Or.inl (bool_eq_false_of_not_true h)

/-- The output of sort_edges is sorted for the comparator's non-strict
order, as std::sort guarantees. -/
theorem sorted_sort_edges (es : EdgeList α β) :
    List.Sorted (edge_le (α := α) (β := β)) (sort_edges es) :=
  List.sorted_insertionSort _ es

theorem sigEq_true_iff (x y : Edge α β) :
    sigEq x y = true ↔ (x.to_ = y.to_ ∧ x.weight = y.weight) := by
  simp [sigEq]

/-- In a sorted run x ≤ y ≤ z, if x and z share a signature then so do x
and y. -/
theorem sigEq_of_between (x y z : Edge α β) (hxy : edge_le x y) (hyz : edge_le y z)
    (hxz : sigEq x z = true) : sigEq x y = true := by
  unfold edge_le at hxy hyz
  rw [edge_cmp_lt_eq_sig_lt] at hxy hyz
  obtain ⟨h1, h2⟩ := (sigEq_true_iff x z).mp hxz
  have hsz : ((z.to_ : α), z.weight) = (x.to_, x.weight) := by rw [h1, h2]
  rw [hsz] at hyz
  have hyx : ((y.to_ : α), y.weight) = (x.to_, x.weight) := sig_lt_conn _ _ hxy hyz
  rw [sigEq_true_iff]
  exact ⟨(congrArg Prod.fst hyx).symm, (congrArg Prod.snd hyx).symm⟩

/-- On a sorted list, the std::unique scan starting from a kept element x
removes exactly the later elements sharing x's signature, i.e. it agrees
with global deduplication. -/
theorem uniqueAdjacentGo_eq_dedup (l : EdgeList α β) : ∀ x : Edge α β,
    List.Sorted (edge_le (α := α) (β := β)) (x :: l) →
    uniqueAdjacentGo x l = dedup_keep_first (l.filter (fun y => !sigEq x y)) := by
  induction l with
  | nil =>
    intro x _
    simp [uniqueAdjacentGo, dedup_keep_first]
  | cons y ys ih =>
    intro x h
    obtain ⟨hx, hys⟩ := List.sorted_cons.mp h
    by_cases hxy : sigEq x y = true
    · have hsub : List.Sorted (edge_le (α := α) (β := β)) (x :: ys) := by
        rw [List.sorted_cons]
        exact ⟨fun b hb => hx b (List.mem_cons_of_mem _ hb), (List.sorted_cons.mp hys).2⟩
      rw [List.filter_cons_of_neg (by simp [hxy])]
      simp only [uniqueAdjacentGo, if_pos hxy]
      exact ih x hsub
    · have hxyf : sigEq x y = false := bool_eq_false_of_not_true hxy
      rw [List.filter_cons_of_pos (by simp [hxyf])]
      simp only [uniqueAdjacentGo, if_neg hxy]
      rw [dedup_keep_first]
      congr 1
      rw [List.filter_filter, ih y hys]
      congr 1
      apply List.filter_congr
      intro z hz
      by_cases hyz : sigEq y z = true
      · simp [hyz]
      · have hyzf := bool_eq_false_of_not_true hyz
        simp only [hyzf, Bool.not_false, Bool.true_and]
        by_cases hxz : sigEq x z = true
        · exact absurd
            (sigEq_of_between x y z (hx y (List.mem_cons_self y ys))
              ((List.sorted_cons.mp hys).1 z hz) hxz) hxy
        · simp [bool_eq_false_of_not_true hxz]

/-- On a sorted list, new_edges.erase(std::unique(...), end()) performs
exactly the deduplication by signature keeping first occurrences. -/
theorem uniqueAdjacent_eq_dedup (l : EdgeList α β)
    (h : List.Sorted (edge_le (α := α) (β := β)) l) :
    uniqueAdjacent l = dedup_keep_first l := by
  cases l with
  | nil => simp [uniqueAdjacent, dedup_keep_first]
  | cons x xs =>
    simp only [uniqueAdjacent]
    rw [dedup_keep_first]
    exact congrArg (List.cons x) (uniqueAdjacentGo_eq_dedup xs x h)

theorem mapFind_mapSet_self (l : List (α × EdgeList α β)) (k : α) (v : EdgeList α β) :
    mapFind (mapSet l k v) k = some v := by
  induction l with
  | nil => simp [mapSet, mapFind]
  | cons p rest ih =>
    rcases p with ⟨k0, v0⟩
    by_cases h : k = k0
    · simp [mapSet, h, mapFind]
    · by_cases h2 : k < k0
      · simp [mapSet, h, h2, mapFind]
      · simp [mapSet, h, h2, mapFind, ih]

theorem mapSet_mapSet_self (l : List (α × EdgeList α β)) (k : α) (v w : EdgeList α β) :
    mapSet (mapSet l k v) k w = mapSet l k w := by
  induction l with
  | nil => simp [mapSet]
  | cons p rest ih =>
    rcases p with ⟨k0, v0⟩
    by_cases h : k = k0
    · simp [mapSet, h]
    · by_cases h2 : k < k0
      · simp [mapSet, h, h2]
      · simp [mapSet, h, h2, ih]

/-- C1: the claim states operator== is true only for identical node sets,
in particular that two graphs differing in an edgeless node compare
unequal.  The code only compares the node count and the flattened edge
sequences, so the one-node graphs over 1 and over 2 compare equal even
though their node sets differ — contradicting the operator's own
documentation. -/
theorem C1_operator_eq_true_for_different_isolated_nodes :
    graphEq gA gB = true ∧ gA.nodes = [1] ∧ gB.nodes = [2] := by
  refine ⟨by decide, by decide, by decide⟩

/-- C2: the claim states canonical order holds after every operation,
including for lists whose edges had their destination rewritten.  After
replace_node(1, 3) on a graph where node 2 owns edges to 1 and to 2, node
2's list is (2→3,1), (2→2,1) — destinations out of order — because
replace_node only re-sorts the renamed node's own list. -/
theorem C2_replace_node_leaves_rewritten_list_unsorted :
    (replace_node gC2 1 3).1 = .ok true ∧
    ((replace_node gC2 1 3).2).edgesOf 2 = [⟨2, 3, some 1⟩, ⟨2, 2, some 1⟩] ∧
    edges_canonically_sorted (((replace_node gC2 1 3).2).edgesOf 2) = false := by
  refine ⟨by decide, by decide, by decide⟩

/-- C3: the claim states the two-iterator erase_edge removes exactly the
flattened half-open range.  On four edges (1,1,1), (1,2,1), (1,3,1),
(1,4,1) with i = begin and s the position of (1,3,1), the range [i, s) is
the first two edges, but the loop i = erase_edge(i); ++i skips an element
after every erasure and removes (1,1,1) and (1,3,1) instead, leaving
(1,2,1) and (1,4,1). -/
theorem C3_erase_edge_range_erases_wrong_edges :
    gC3.iterBegin = .pos 1 0 ∧
    gC3.find 1 3 (some 1) = .pos 1 2 ∧
    gC3.flatten = [(1, 1, some 1), (1, 2, some 1), (1, 3, some 1), (1, 4, some 1)] ∧
    (erase_edge_range gC3 (.pos 1 0) (.pos 1 2)).1 = .ok (.pos 1 2) ∧
    ((erase_edge_range gC3 (.pos 1 0) (.pos 1 2)).2).edgesOf 1
      = [⟨1, 2, some 1⟩, ⟨1, 4, some 1⟩] := by
  refine ⟨by decide, by decide, by decide, by decide, by decide⟩

/-- C4: the claim states the single-iterator erase_edge returns the next
logical position, possibly the first edge of a later node.  Erasing
(1,1,1), the only edge of node 1, returns end() although (2,1,1) is the
next logical position both before and after the erasure, because the code
answers end() whenever the erased edge was the last of its own node's
vector. -/
theorem C4_erase_edge_iterator_returns_end_despite_following_edge :
    gC4.iterBegin = .pos 1 0 ∧
    gC4.iterSucc (.pos 1 0) = .pos 2 0 ∧
    (erase_edge_it gC4 (.pos 1 0)).1 = .endIt ∧
    ((erase_edge_it gC4 (.pos 1 0)).2).flatten = [(2, 1, some 1)] ∧
    ((erase_edge_it gC4 (.pos 1 0)).2).iterBegin = .pos 2 0 := by
  refine ⟨by decide, by decide, by decide, by decide, by decide⟩

/-- C5: the claim states erase_edge(src, dst, weight) removes at most the
one edge with the given weight signature and leaves an unweighted src→dst
edge untouched.  The removal predicate accepts every unweighted edge to
dst regardless of the supplied weight, so erasing (1,2,5) also deletes the
unweighted edge 1→2: both edges vanish. -/
theorem C5_erase_edge_value_also_removes_unweighted_edge :
    gC5.edgesOf 1 = [⟨1, 2, none⟩, ⟨1, 2, some 5⟩] ∧
    (erase_edge gC5 1 2 (some 5)).1 = .ok true ∧
    ((erase_edge gC5 1 2 (some 5)).2).edgesOf 1 = [] := by
  refine ⟨by decide, by decide, by decide⟩

/-- C7: the claim states InvalidRange is raised exactly when i is strictly
after j in the flattened order.  The code compares the within-node
indices instead: for i at (1,2,1) (second slot of node 1) and j at
(2,2,1) (first slot of node 2), i precedes j in flattened order (position
1 against 2) yet the call raises InvalidRange. -/
theorem C7_invalid_range_raised_for_ascending_iterators :
    gC7.find 1 2 (some 1) = .pos 1 1 ∧
    gC7.find 2 2 (some 1) = .pos 2 0 ∧
    gC7.flatPos (.pos 1 1) < gC7.flatPos (.pos 2 0) ∧
    (erase_edge_range gC7 (.pos 1 1) (.pos 2 0)).1 = .error .InvalidRange ∧
    (erase_edge_range gC7 (.pos 1 1) (.pos 2 0)).2 = gC7 := by
  refine ⟨by decide, by decide, by decide, by decide, by decide⟩

/-- C8: there is a graph, reached through the public interface, on which
replace_node succeeds and leaves a node's outgoing list holding two
observably-equal edges.  gC8b is gC8 after merge_replace_node(1,2), which
rewrote node 3's two weight-7 edges onto destination 2 without
deduplicating a third party's list; replace_node(2,4) then succeeds,
rewrites both onto destination 4 and, performing no deduplication, leaves
(3,4,7) twice. -/
theorem C8_replace_node_leaves_duplicate_equal_edges :
    gC8b.edgesOf 3 = [⟨3, 2, some 7⟩, ⟨3, 2, some 7⟩] ∧
    (replace_node gC8b 2 4).1 = .ok true ∧
    ((replace_node gC8b 2 4).2).edgesOf 3 = [⟨3, 4, some 7⟩, ⟨3, 4, some 7⟩] := by
  refine ⟨by decide, by decide, by decide⟩

/-- C9: every operation that raises an error leaves the graph exactly as
it was: the error branches of insert_edge, replace_node,
merge_replace_node, erase_edge by value and the two-iterator erase_edge
all return the input state untouched (the queries is_connected, edges and
connections are const member functions, embedded as pure functions of the
graph, so they cannot change state at all). -/
theorem C9_error_leaves_graph_unchanged (g : Graph α β) (a b : α) (w : Option β)
    (i s : Iter α) :
    (∀ e, (insert_edge g a b w).1 = .error e → (insert_edge g a b w).2 = g) ∧
    (∀ e, (replace_node g a b).1 = .error e → (replace_node g a b).2 = g) ∧
    (∀ e, (merge_replace_node g a b).1 = .error e → (merge_replace_node g a b).2 = g) ∧
    (∀ e, (erase_edge g a b w).1 = .error e → (erase_edge g a b w).2 = g) ∧
    (∀ e, (erase_edge_range g i s).1 = .error e → (erase_edge_range g i s).2 = g) := by
  refine ⟨?_, ?_, ?_, ?_, ?_⟩
  · intro e h
    by_cases hg : (!g.is_node a || !g.is_node b) = true
    · simp only [insert_edge, if_pos hg]
    · exfalso
      simp only [insert_edge, if_neg hg] at h
      split at h <;> simp at h
  · intro e h
    by_cases h1 : (!g.is_node a) = true
    · simp only [replace_node, if_pos h1]
    · exfalso
      simp only [replace_node, if_neg h1] at h
      by_cases h2 : g.is_node b = true
      · rw [if_pos h2] at h; simp at h
      · rw [if_neg h2] at h; simp at h
  · intro e h
    by_cases hg : (!g.is_node a || !g.is_node b) = true
    · simp only [merge_replace_node, if_pos hg]
    · exfalso
      simp only [merge_replace_node, if_neg hg] at h
      simp at h
  · intro e h
    by_cases hg : (!g.is_node a || !g.is_node b) = true
    · simp only [erase_edge, if_pos hg]
    · exfalso
      simp only [erase_edge, if_neg hg] at h
      split at h <;> simp at h
  · intro e h
    by_cases h1 : (i = s ∧ i = Iter.endIt)
    · exfalso
      simp only [erase_edge_range, if_pos h1] at h
      simp at h
    · simp only [erase_edge_range, if_neg h1] at h ⊢
      by_cases h2 : iterIndex s < iterIndex i
      · rw [if_pos h2]
      · exfalso
        rw [if_neg h2] at h
        simp at h

/-- C9 witness: concrete raising calls on gC7 (absent node 9, and a
backwards iterator pair) whose states are unchanged. -/
theorem C9_witness :
    (insert_edge gC7 9 1 none).2 = gC7 ∧
    (replace_node gC7 9 3).2 = gC7 ∧
    (merge_replace_node gC7 9 1).2 = gC7 ∧
    (erase_edge gC7 9 1 none).2 = gC7 ∧
    (erase_edge_range gC7 (.pos 1 1) (.pos 1 0)).2 = gC7 :=
  ⟨(C9_error_leaves_graph_unchanged gC7 9 1 none (.pos 1 1) (.pos 1 0)).1
      Err.NodeNotFound (by decide),
   (C9_error_leaves_graph_unchanged gC7 9 3 none (.pos 1 1) (.pos 1 0)).2.1
      Err.NodeNotFound (by decide),
   (C9_error_leaves_graph_unchanged gC7 9 1 none (.pos 1 1) (.pos 1 0)).2.2.1
      Err.NodeNotFound (by decide),
   (C9_error_leaves_graph_unchanged gC7 9 1 none (.pos 1 1) (.pos 1 0)).2.2.2.1
      Err.NodeNotFound (by decide),
   (C9_error_leaves_graph_unchanged gC7 9 1 none (.pos 1 1) (.pos 1 0)).2.2.2.2
      Err.InvalidRange (by decide)⟩

/-- C10: find called with an absent src or dst returns end() — it is a
total pure function of the graph (the C++ member is const), so it raises
nothing and cannot change state, unlike the node-addressing queries that
throw NodeNotFound. -/
theorem C10_find_with_absent_node_returns_end (g : Graph α β) (src dst : α)
    (w : Option β) (h : g.is_node src = false ∨ g.is_node dst = false) :
    g.find src dst w = .endIt := by
  rcases h with h | h <;> simp [Graph.find, h]

/-- C10 witness: node 5 is absent from gA and find answers end(). -/
theorem C10_witness : gA.is_node 5 = false ∧ gA.find 5 1 none = .endIt :=
  ⟨by decide, C10_find_with_absent_node_returns_end gA 5 1 none (Or.inl (by decide))⟩

/-- C6: when old and new are both nodes, merge_replace_node produces
exactly the state described by the specification — old's outgoing edges
added to new's list unless their (destination, weight-signature) is
already there, every destination equal to old rewritten to new, new's
list re-sorted and deduplicated by signature keeping the first occurrence
in canonical order, old removed (so the code's sort + adjacent
std::unique realises the spec's global deduplication) — and the A, B, C
scenario ends with nodes B, C and B's outgoing list (B,B,1), (B,C,2),
(B,C,3) in that order. -/
theorem C6_merge_replace_node_matches_spec (g : Graph α β) (old_data new_data : α)
    (h1 : g.is_node old_data = true) (h2 : g.is_node new_data = true) :
    merge_replace_node g old_data new_data
      = (.ok (), merge_replace_node_spec g old_data new_data)
    ∧ ((merge_replace_node gC6 1 2).2).nodes = [2, 3]
    ∧ ((merge_replace_node gC6 1 2).2).edgesOf 2
      = [⟨2, 2, some 1⟩, ⟨2, 3, some 2⟩, ⟨2, 3, some 3⟩] := by
  refine ⟨?_, by decide, by decide⟩
  have hguard : (!g.is_node old_data || !g.is_node new_data) = false := by
    rw [h1, h2]
    rfl
  simp only [merge_replace_node, merge_replace_node_spec, hguard, Bool.false_eq_true,
    if_false, edge_exists_eq_sig_exists, mapFind_mapSet_self, Option.getD_some,
    mapSet_mapSet_self]
  rw [uniqueAdjacent_eq_dedup _ (sorted_sort_edges _)]

/-- C6 witness: the scenario graph satisfies the hypotheses and the
refinement instance holds there. -/
theorem C6_witness :
    gC6.is_node 1 = true ∧ gC6.is_node 2 = true ∧
    merge_replace_node gC6 1 2 = (.ok (), merge_replace_node_spec gC6 1 2) :=
  ⟨by decide, by decide,
   (C6_merge_replace_node_matches_spec gC6 1 2 (by decide) (by decide)).1⟩

end Gdwg
